import Mathlib

/-!
thrill: ConcurrentBoundedQueue and DispatcherThread.

A shallow embedding of `thrill/common/concurrent_bounded_queue.hpp` and
`thrill/net/dispatcher_thread.cpp`, with the properties of the two components.

Every member function of the queue holds `mutex_` for its whole body, so each
call is one atomic transition of the queue contents; a concurrent execution is
a sequence of such transitions.
-/

namespace thrill
namespace common

/-- The class `ConcurrentBoundedQueue<T>`. `queue_` is the `std::queue<T>`, its
front being the head of the list. `mutex_` and `cv_` hold no data: the mutex
makes every member function atomic, the condition variable only wakes a
consumer blocked in `pop`. -/
structure ConcurrentBoundedQueue (T : Type) where
  queue_ : List T
deriving DecidableEq, Repr

namespace ConcurrentBoundedQueue

variable {T : Type}

/-- The default constructor: an empty `std::queue`. -/
def new : ConcurrentBoundedQueue T := ⟨[]⟩

/-- The member `push(const T&)` / `push(T&&)`: `queue_.push(source)`. -/
def push (q : ConcurrentBoundedQueue T) (source : T) : ConcurrentBoundedQueue T :=
  ⟨q.queue_ ++ [source]⟩

/-- The member `emplace(args...)`: `queue_.emplace(args...)`; the element built
from the arguments is given directly. -/
def emplace (q : ConcurrentBoundedQueue T) (args : T) : ConcurrentBoundedQueue T :=
  ⟨q.queue_ ++ [args]⟩

/-- The member `empty()`. -/
def empty (q : ConcurrentBoundedQueue T) : Bool :=
  q.queue_.isEmpty

/-- The member `clear()`. -/
def clear (_q : ConcurrentBoundedQueue T) : ConcurrentBoundedQueue T :=
  ⟨[]⟩

/-- The member `size()`. -/
def size (q : ConcurrentBoundedQueue T) : Nat :=
  q.queue_.length

/-- The member `try_pop(T& destination)`: the returned triple is the `bool`
result, the contents of `destination` after the call, and the queue after the
call. -/
def try_pop (q : ConcurrentBoundedQueue T) (destination : T) :
    Bool × T × ConcurrentBoundedQueue T :=
  match q.queue_ with
  | [] => (false, destination, q)
  | front :: rest => (true, front, ⟨rest⟩)

/-- The member `pop(T& destination)`. On an empty queue the caller waits on
`cv_` and the call does not return before another thread pushes: `none`.
Otherwise the new contents of `destination` and the queue after the call. -/
def pop (q : ConcurrentBoundedQueue T) (_destination : T) :
    Option (T × ConcurrentBoundedQueue T) :=
  match q.queue_ with
  | [] => none
  | front :: rest => some (front, ⟨rest⟩)

end ConcurrentBoundedQueue

/-- An atomic step of a concurrent run on one queue: producer `i` gets the
mutex for its next `push` or `emplace`, or the consumer gets it for a `pop` or
a `try_pop`. -/
inductive QueueEvent
  | push (i : Nat)
  | emplace (i : Nat)
  | pop
  | try_pop
deriving DecidableEq, Repr

/-- The state of a concurrent run: for every producer the values it still has
to push, in its program order; the queue; the consumer's destination variable;
and the values the consumer has received so far, oldest first. -/
structure QueueRun (T : Type) where
  pending : List (List T)
  queue : ConcurrentBoundedQueue T
  destination : T
  received : List T
deriving DecidableEq, Repr

namespace QueueRun

variable {T : Type}

/-- The run starts with an empty queue; `ps` are the values of the producers
and `d` the initial contents of the consumer's destination variable. -/
def start (ps : List (List T)) (d : T) : QueueRun T :=
  { pending := ps, queue := ConcurrentBoundedQueue.new, destination := d, received := [] }

/-- One atomic step. A producer with nothing left does nothing. A `pop` on an
empty queue keeps the consumer waiting: nothing changes until a later step. A
`try_pop` that returns false delivers nothing. -/
def step (e : QueueEvent) (r : QueueRun T) : QueueRun T :=
  match e with
  | .push i =>
    match r.pending[i]? with
    | some (x :: rest) => { r with pending := r.pending.set i rest, queue := r.queue.push x }
    | _ => r
  | .emplace i =>
    match r.pending[i]? with
    | some (x :: rest) =>
      { r with pending := r.pending.set i rest, queue := r.queue.emplace x }
    | _ => r
  | .pop =>
    match r.queue.pop r.destination with
    | none => r
    | some (x, q) => { r with queue := q, destination := x, received := r.received ++ [x] }
  | .try_pop =>
    match r.queue.try_pop r.destination with
    | (true, x, q) => { r with queue := q, destination := x, received := r.received ++ [x] }
    | (false, x, q) => { r with queue := q, destination := x }

/-- A concurrent run: the steps in the order in which they get the mutex. -/
def exec : List QueueEvent → QueueRun T → QueueRun T
  | [], r => r
  | e :: sched, r => exec sched (step e r)

/-- The values pushed during a run, in the order in which the pushes got the
mutex (computed from the schedule and the producers alone, without the
queue). -/
def pushOrder : List QueueEvent → List (List T) → List T
  | [], _ => []
  | .push i :: sched, ps =>
    match ps[i]? with
    | some (x :: rest) => x :: pushOrder sched (ps.set i rest)
    | _ => pushOrder sched ps
  | .emplace i :: sched, ps =>
    match ps[i]? with
    | some (x :: rest) => x :: pushOrder sched (ps.set i rest)
    | _ => pushOrder sched ps
  | _ :: sched, ps => pushOrder sched ps

/-- The schedule consists of retrievals of the consumer only. -/
def consumerOnly (sched : List QueueEvent) : Prop :=
  ∀ e ∈ sched, e = QueueEvent.pop ∨ e = QueueEvent.try_pop

end QueueRun
end common

namespace net

/-- Modelled from the spec: `Connection` is declared outside these sources; a
connection is a reference to a network endpoint, here its identity. -/
structure Connection where
  id : Nat
deriving DecidableEq, Repr

/-- Modelled from the spec: the callback types (`TimerCallback`,
`AsyncCallback`, `AsyncReadCallback`, `AsyncReadByteBlockCallback`,
`AsyncWriteCallback`) are declared outside these sources; a callback is a
function object that the dispatcher thread never inspects, here its identity. -/
structure Callback where
  id : Nat
deriving DecidableEq, Repr

/-- Modelled from the spec: `net::Buffer` is declared outside these sources; a
move-only byte container. `valid` is false for a moved-from buffer. -/
structure Buffer where
  valid : Bool
  data : List Nat
deriving DecidableEq, Repr

/-- Modelled from the spec: the constructor `Buffer(const void*, size_t)`, which
copies `size` bytes of the caller's data into a newly owned buffer. -/
def Buffer.copy (data : List Nat) (size : Nat) : Buffer :=
  { valid := true, data := data.take size }

/-- Modelled from the spec: `data::PinnedBlock` is declared outside these
sources; `valid` is the result of `IsValid()`. -/
structure PinnedBlock where
  valid : Bool
  data : List Nat
deriving DecidableEq, Repr

/-- Modelled from the spec: `data::PinnedByteBlockPtr` is declared outside these
sources; `valid` is the result of `valid()`. -/
structure PinnedByteBlockPtr where
  valid : Bool
  capacity : Nat
deriving DecidableEq, Repr

/-- The calls that `DispatcherThread` makes on the event loop `dispatcher_`
(class `Dispatcher`, declared outside these sources), with their arguments.
`seq` is a `uint32_t`, `size` a `size_t`, `timeout` a number of milliseconds.
A write registered without a callback argument has `none`. -/
inductive DispatcherCall
  | AddTimer (timeout : Nat) (cb : Callback)
  | AddRead (c : Connection) (read_cb : Callback)
  | AddWrite (c : Connection) (write_cb : Callback)
  | Cancel (c : Connection)
  | AsyncRead (c : Connection) (seq : Nat) (size : Nat) (done_cb : Callback)
  | AsyncReadBlock (c : Connection) (seq : Nat) (size : Nat)
      (block : PinnedByteBlockPtr) (done_cb : Callback)
  | AsyncWrite (c : Connection) (seq : Nat) (buffer : Buffer) (done_cb : Option Callback)
  | AsyncWriteBlock (c : Connection) (seq : Nat) (block : PinnedBlock)
      (done_cb : Option Callback)
  | Dispatch
  | Interrupt
deriving DecidableEq, Repr

/-- Modelled from the spec: the event loop is an external collaborator whose
internals are out of scope. It is represented by what `DispatcherThread` does
to it: the calls received so far, oldest first. What `HasAsyncWrites()`
answers is not fixed here; the answer is an input of the step that asks. -/
structure Dispatcher where
  calls : List DispatcherCall
deriving DecidableEq, Repr

/-- One call arrives at the event loop. -/
def Dispatcher.call (d : Dispatcher) (c : DispatcherCall) : Dispatcher :=
  ⟨d.calls ++ [c]⟩

/-- The number of `Interrupt()` calls the event loop has received. -/
def Dispatcher.interrupts (d : Dispatcher) : Nat :=
  d.calls.count DispatcherCall.Interrupt

/-- The number of `Dispatch()` calls the event loop has received. -/
def Dispatcher.dispatches (d : Dispatcher) : Nat :=
  d.calls.count DispatcherCall.Dispatch

/-- The width of a `uint32_t`. -/
def UINT32_SIZE : Nat := 4294967296

/-- A `Job`: one of the closures handed to `Enqueue`, with its captures. The
constructors follow the lambdas of the submission calls in source order;
`Empty` is the default-constructed `Job job;` that `Work` passes to `try_pop`
as destination. -/
inductive Job
  | Empty
  | AddTimer (timeout : Nat) (cb : Callback)
  | AddRead (c : Connection) (read_cb : Callback)
  | AddWrite (c : Connection) (write_cb : Callback)
  | Cancel (c : Connection)
  | AsyncRead (c : Connection) (seq : Nat) (size : Nat) (done_cb : Callback)
  | AsyncReadBlock (c : Connection) (seq : Nat) (size : Nat)
      (b : PinnedByteBlockPtr) (done_cb : Callback)
  | AsyncWrite (c : Connection) (seq : Nat) (b : Buffer) (done_cb : Callback)
  | AsyncWriteBlock (c : Connection) (seq : Nat) (b1 : Buffer) (b2 : PinnedBlock)
      (done_cb : Callback)
deriving DecidableEq, Repr

/-- The calls that the body of a Job makes on `dispatcher_`, in order. The
two-buffer write computes `seq + 1` in `uint32_t`. The default-constructed Job
has no body (`Work` never calls it). -/
def Job.body : Job → List DispatcherCall
  | .Empty => []
  | .AddTimer timeout cb => [.AddTimer timeout cb]
  | .AddRead c read_cb => [.AddRead c read_cb]
  | .AddWrite c write_cb => [.AddWrite c write_cb]
  | .Cancel c => [.Cancel c]
  | .AsyncRead c seq size done_cb => [.AsyncRead c seq size done_cb]
  | .AsyncReadBlock c seq size b done_cb => [.AsyncReadBlock c seq size b done_cb]
  | .AsyncWrite c seq b done_cb => [.AsyncWrite c seq b (some done_cb)]
  | .AsyncWriteBlock c seq b1 b2 done_cb =>
    [.AsyncWrite c seq b1 none,
     .AsyncWriteBlock c ((seq + 1) % UINT32_SIZE) b2 (some done_cb)]

/-- Executing a Job, `job()`: its calls reach the event loop one after the
other. -/
def Job.run (job : Job) (d : Dispatcher) : Dispatcher :=
  job.body.foldl Dispatcher.call d

/-- Where the dispatcher thread stands inside `Work()`: the next atomic action
it will perform. -/
inductive WorkPc
  /-- loop head, about to evaluate `!terminate_` -/
  | loopTerminate
  /-- loop head, `terminate_` was set; about to evaluate `HasAsyncWrites()` -/
  | loopHasWrites
  /-- loop head, about to evaluate `!jobqueue_.empty()` -/
  | loopEmpty
  /-- about to evaluate `jobqueue_.try_pop(job)` of the `while` -/
  | drain
  /-- about to call `job()` inside the `while` -/
  | drainJob (job : Job)
  /-- about to execute `busy_ = true` -/
  | setBusy
  /-- about to evaluate `jobqueue_.try_pop(job)` of the `if` -/
  | recheck
  /-- inside the `if`, about to execute `busy_ = false` -/
  | resetBusy (job : Job)
  /-- inside the `if`, about to call `job()`, then `continue` -/
  | recheckJob (job : Job)
  /-- about to call `dispatcher_->Dispatch()` -/
  | callDispatch
  /-- inside `Dispatch()`, possibly blocked -/
  | inDispatch
  /-- `Dispatch()` has returned; about to execute `busy_ = false` -/
  | clearBusy
  /-- `Work()` has returned -/
  | returned
deriving DecidableEq, Repr

/-- The member `thread_`: where the started thread stands in `Work()`, and
whether the handle can still be joined. -/
structure Thread where
  pc : WorkPc
  joinable : Bool
deriving DecidableEq, Repr

/-- The class `DispatcherThread`: its data members. `mem_manager_` and `name_`
play no part in the control flow and are left out. -/
structure DispatcherThread where
  dispatcher_ : Dispatcher
  jobqueue_ : common.ConcurrentBoundedQueue Job
  busy_ : Bool
  terminate_ : Bool
  thread_ : Thread
deriving DecidableEq, Repr

namespace DispatcherThread

/-- Modelled from the spec: the constructor. It takes the event loop and starts
the thread on `Work`. The initial values of `busy_` and `terminate_` are given
in the class declaration, which is outside these sources; both flags start
false (busy is true only around the blocking wait, terminate is set at most
once). Naming the thread and pinning it to a core are OS calls without effect
on this state. -/
def new (dispatcher : Dispatcher) : DispatcherThread :=
  { dispatcher_ := dispatcher
    jobqueue_ := common.ConcurrentBoundedQueue.new
    busy_ := false
    terminate_ := false
    thread_ := { pc := .loopTerminate, joinable := true } }

/-- The member `Enqueue(Job&& job)`. -/
def Enqueue (s : DispatcherThread) (job : Job) : DispatcherThread :=
  { s with jobqueue_ := s.jobqueue_.push job }

/-- The member `WakeUpThread()`. -/
def WakeUpThread (s : DispatcherThread) : DispatcherThread :=
  if s.busy_ then { s with dispatcher_ := s.dispatcher_.call .Interrupt }
  else s

/-- The member `AddTimer(timeout, cb)`. -/
def AddTimer (s : DispatcherThread) (timeout : Nat) (cb : Callback) : DispatcherThread :=
  WakeUpThread (Enqueue s (.AddTimer timeout cb))

/-- The member `AddRead(c, read_cb)`. -/
def AddRead (s : DispatcherThread) (c : Connection) (read_cb : Callback) : DispatcherThread :=
  WakeUpThread (Enqueue s (.AddRead c read_cb))

/-- The member `AddWrite(c, write_cb)`. -/
def AddWrite (s : DispatcherThread) (c : Connection) (write_cb : Callback) :
    DispatcherThread :=
  WakeUpThread (Enqueue s (.AddWrite c write_cb))

/-- The member `Cancel(c)`. -/
def Cancel (s : DispatcherThread) (c : Connection) : DispatcherThread :=
  WakeUpThread (Enqueue s (.Cancel c))

/-- The member `AsyncRead(c, seq, size, done_cb)`. -/
def AsyncRead (s : DispatcherThread) (c : Connection) (seq size : Nat)
    (done_cb : Callback) : DispatcherThread :=
  WakeUpThread (Enqueue s (.AsyncRead c seq size done_cb))

/-- The member `AsyncRead(c, seq, size, block, done_cb)` reading into a pinned
byte block. `assert(block.valid())` comes first and is taken as checked; a
failed assertion aborts the program: `error`, with the state at that moment. -/
def AsyncReadBlock (s : DispatcherThread) (c : Connection) (seq size : Nat)
    (block : PinnedByteBlockPtr) (done_cb : Callback) :
    Except DispatcherThread DispatcherThread :=
  if block.valid then
    .ok (WakeUpThread (Enqueue s (.AsyncReadBlock c seq size block done_cb)))
  else .error s

/-- The member `AsyncWrite(c, seq, buffer, done_cb)` writing one buffer. It has
no assertion. -/
def AsyncWrite (s : DispatcherThread) (c : Connection) (seq : Nat) (buffer : Buffer)
    (done_cb : Callback) : DispatcherThread :=
  WakeUpThread (Enqueue s (.AsyncWrite c seq buffer done_cb))

/-- The member `AsyncWrite(c, seq, buffer, block, done_cb)` writing a buffer
and a pinned block. `assert(block.IsValid())` comes first and is taken as
checked; a failed assertion aborts the program: `error`, with the state at
that moment. The buffer is not checked. -/
def AsyncWriteBlock (s : DispatcherThread) (c : Connection) (seq : Nat) (buffer : Buffer)
    (block : PinnedBlock) (done_cb : Callback) :
    Except DispatcherThread DispatcherThread :=
  if block.valid then
    .ok (WakeUpThread (Enqueue s (.AsyncWriteBlock c seq buffer block done_cb)))
  else .error s

/-- The member `AsyncWriteCopy(c, seq, buffer, size, done_cb)`. -/
def AsyncWriteCopy (s : DispatcherThread) (c : Connection) (seq : Nat)
    (buffer : List Nat) (size : Nat) (done_cb : Callback) : DispatcherThread :=
  AsyncWrite s c seq (Buffer.copy buffer size) done_cb

/-- The member `AsyncWriteCopy(c, seq, str, done_cb)`; `str` is given by its
bytes, `str.data()` and `str.size()`. -/
def AsyncWriteCopyString (s : DispatcherThread) (c : Connection) (seq : Nat)
    (str : List Nat) (done_cb : Callback) : DispatcherThread :=
  AsyncWriteCopy s c seq str str.length done_cb

end DispatcherThread

/-- A submission call with its arguments: one constructor for each public
member function that hands a Job to `Enqueue`. -/
inductive Submission
  | AddTimer (timeout : Nat) (cb : Callback)
  | AddRead (c : Connection) (read_cb : Callback)
  | AddWrite (c : Connection) (write_cb : Callback)
  | Cancel (c : Connection)
  | AsyncRead (c : Connection) (seq : Nat) (size : Nat) (done_cb : Callback)
  | AsyncReadBlock (c : Connection) (seq : Nat) (size : Nat)
      (block : PinnedByteBlockPtr) (done_cb : Callback)
  | AsyncWrite (c : Connection) (seq : Nat) (buffer : Buffer) (done_cb : Callback)
  | AsyncWriteBlock (c : Connection) (seq : Nat) (buffer : Buffer) (block : PinnedBlock)
      (done_cb : Callback)
  | AsyncWriteCopy (c : Connection) (seq : Nat) (buffer : List Nat) (size : Nat)
      (done_cb : Callback)
  | AsyncWriteCopyString (c : Connection) (seq : Nat) (str : List Nat) (done_cb : Callback)
deriving DecidableEq, Repr

/-- Making a submission call on a `DispatcherThread`; `error` when the call
stops on its assertion. -/
def Submission.apply (call : Submission) (s : DispatcherThread) :
    Except DispatcherThread DispatcherThread :=
  match call with
  | .AddTimer timeout cb => .ok (s.AddTimer timeout cb)
  | .AddRead c read_cb => .ok (s.AddRead c read_cb)
  | .AddWrite c write_cb => .ok (s.AddWrite c write_cb)
  | .Cancel c => .ok (s.Cancel c)
  | .AsyncRead c seq size done_cb => .ok (s.AsyncRead c seq size done_cb)
  | .AsyncReadBlock c seq size block done_cb => s.AsyncReadBlock c seq size block done_cb
  | .AsyncWrite c seq buffer done_cb => .ok (s.AsyncWrite c seq buffer done_cb)
  | .AsyncWriteBlock c seq buffer block done_cb =>
    s.AsyncWriteBlock c seq buffer block done_cb
  | .AsyncWriteCopy c seq buffer size done_cb =>
    .ok (s.AsyncWriteCopy c seq buffer size done_cb)
  | .AsyncWriteCopyString c seq str done_cb =>
    .ok (s.AsyncWriteCopyString c seq str done_cb)

/-- The condition a submission call asserts before anything else; true for a
call without assertion. -/
def Submission.asserted : Submission → Bool
  | .AsyncReadBlock _ _ _ block _ => block.valid
  | .AsyncWriteBlock _ _ _ block _ => block.valid
  | _ => true

/-- The Job that a submission call builds from its arguments (the lambda with
its captures). -/
def Submission.job : Submission → Job
  | .AddTimer timeout cb => .AddTimer timeout cb
  | .AddRead c read_cb => .AddRead c read_cb
  | .AddWrite c write_cb => .AddWrite c write_cb
  | .Cancel c => .Cancel c
  | .AsyncRead c seq size done_cb => .AsyncRead c seq size done_cb
  | .AsyncReadBlock c seq size block done_cb => .AsyncReadBlock c seq size block done_cb
  | .AsyncWrite c seq buffer done_cb => .AsyncWrite c seq buffer done_cb
  | .AsyncWriteBlock c seq buffer block done_cb => .AsyncWriteBlock c seq buffer block done_cb
  | .AsyncWriteCopy c seq buffer size done_cb =>
    .AsyncWrite c seq (Buffer.copy buffer size) done_cb
  | .AsyncWriteCopyString c seq str done_cb =>
    .AsyncWrite c seq (Buffer.copy str str.length) done_cb

/-- The buffers and blocks a submission call takes ownership of, each with its
validity. -/
def Submission.ownedValid : Submission → List Bool
  | .AsyncReadBlock _ _ _ block _ => [block.valid]
  | .AsyncWrite _ _ buffer _ => [buffer.valid]
  | .AsyncWriteBlock _ _ buffer block _ => [buffer.valid, block.valid]
  | _ => []

/-- The atomic actions of the dispatcher thread inside `Work()`, as seen from
outside: the value read or written, the result of a `try_pop`, the Job
called. -/
inductive WorkAction
  | readTerminate (v : Bool)
  | hasAsyncWrites (v : Bool)
  | queueEmpty (v : Bool)
  | tryPop (r : Option Job)
  | setBusy (v : Bool)
  | runJob (job : Job)
  | dispatchCall
  | dispatchReturn
deriving DecidableEq, Repr

namespace DispatcherThread

/-- Move the dispatcher thread to another point of `Work()`. -/
def goto (s : DispatcherThread) (pc : WorkPc) : DispatcherThread :=
  { s with thread_ := { s.thread_ with pc := pc } }

/-- One atomic action of the dispatcher thread in `Work()`: the state after it
and the action performed (`none` once `Work()` has returned). `w` is what
`HasAsyncWrites()` answers if this step asks. The loop condition
`!terminate_ || HasAsyncWrites() || !jobqueue_.empty()` is evaluated left to
right with short circuit, one read per step. -/
def workStep (w : Bool) (s : DispatcherThread) : DispatcherThread × Option WorkAction :=
  match s.thread_.pc with
  | .loopTerminate =>
    if !s.terminate_ then (s.goto .drain, some (.readTerminate false))
    else (s.goto .loopHasWrites, some (.readTerminate true))
  | .loopHasWrites =>
    if w then (s.goto .drain, some (.hasAsyncWrites true))
    else (s.goto .loopEmpty, some (.hasAsyncWrites false))
  | .loopEmpty =>
    if !s.jobqueue_.empty then (s.goto .drain, some (.queueEmpty false))
    else (s.goto .returned, some (.queueEmpty true))
  | .drain =>
    match s.jobqueue_.try_pop Job.Empty with
    | (true, job, q) =>
      ({ s with jobqueue_ := q }.goto (.drainJob job), some (.tryPop (some job)))
    | (false, _, q) =>
      ({ s with jobqueue_ := q }.goto .setBusy, some (.tryPop none))
  | .drainJob job =>
    ({ s with dispatcher_ := job.run s.dispatcher_ }.goto .drain, some (.runJob job))
  | .setBusy =>
    ({ s with busy_ := true }.goto .recheck, some (.setBusy true))
  | .recheck =>
    match s.jobqueue_.try_pop Job.Empty with
    | (true, job, q) =>
      ({ s with jobqueue_ := q }.goto (.resetBusy job), some (.tryPop (some job)))
    | (false, _, q) =>
      ({ s with jobqueue_ := q }.goto .callDispatch, some (.tryPop none))
  | .resetBusy job =>
    ({ s with busy_ := false }.goto (.recheckJob job), some (.setBusy false))
  | .recheckJob job =>
    ({ s with dispatcher_ := job.run s.dispatcher_ }.goto .loopTerminate, some (.runJob job))
  | .callDispatch =>
    ({ s with dispatcher_ := s.dispatcher_.call .Dispatch }.goto .inDispatch,
      some .dispatchCall)
  | .inDispatch =>
    (s.goto .clearBusy, some .dispatchReturn)
  | .clearBusy =>
    ({ s with busy_ := false }.goto .loopTerminate, some (.setBusy false))
  | .returned => (s, none)

/-- The dispatcher thread running alone: it performs one action for every
entry of the list, which gives the answers of `HasAsyncWrites()`. -/
def runWork : List Bool → DispatcherThread → DispatcherThread
  | [], s => s
  | w :: ws, s => runWork ws (workStep w s).1

/-- The member `Work()` as run by the dispatcher thread from where it stands,
no other thread acting meanwhile: the state in which it has returned, `none`
when it has not returned after the actions that `ws` allows. -/
def Work (ws : List Bool) (s : DispatcherThread) : Option DispatcherThread :=
  if (runWork ws s).thread_.pc = .returned then some (runWork ws s) else none

/-- The call `thread_.join()`: the caller waits until `Work()` has returned,
the dispatcher thread running meanwhile. `none` when the thread has not
returned after the actions that `ws` allows, or when the handle is not
joinable (`std::thread::join` then throws). -/
def join (ws : List Bool) (s : DispatcherThread) : Option DispatcherThread :=
  if s.thread_.joinable then
    match Work ws s with
    | some s' => some { s' with thread_ := { s'.thread_ with joinable := false } }
    | none => none
  else none

/-- The member `Terminate()`. -/
def Terminate (ws : List Bool) (s : DispatcherThread) : Option DispatcherThread :=
  if s.terminate_ then some s
  else join ws (WakeUpThread { s with terminate_ := true })

/-- The destructor `~DispatcherThread()`. -/
def destroy (ws : List Bool) (s : DispatcherThread) : Option DispatcherThread :=
  Terminate ws s

/-- The dispatcher thread, running alone with `HasAsyncWrites()` answering
false, returns from `Work()` after finitely many actions. -/
def Finishes (s : DispatcherThread) : Prop :=
  ∃ n, (runWork (List.replicate n false) s).thread_.pc = .returned

end DispatcherThread

/-- An atomic step of a concurrent execution around one `DispatcherThread`:
either the dispatcher thread performs its next action in `Work()`, or some
other thread performs one of the shared-state accesses of the public member
functions. A submission call is `enqueue` followed by `WakeUpThread`, whose
only effect is a possible `interrupt`; `Terminate` is `setTerminate` followed
by the same. The other threads are not restricted in what they do or when. -/
inductive Event
  | work (w : Bool)
  | enqueue (job : Job)
  | interrupt
  | setTerminate
deriving DecidableEq, Repr

/-- A `DispatcherThread` together with the history of a concurrent execution:
the actions of the dispatcher thread so far and the Jobs passed to `Enqueue`
so far, both oldest first. -/
structure System where
  dt : DispatcherThread
  trace : List WorkAction
  submitted : List Job
deriving DecidableEq, Repr

namespace System

/-- The system right after construction of the `DispatcherThread`. -/
def start (dispatcher : Dispatcher) : System :=
  { dt := DispatcherThread.new dispatcher, trace := [], submitted := [] }

/-- One atomic step. -/
def step (e : Event) (s : System) : System :=
  match e with
  | .work w =>
    { s with
      dt := (s.dt.workStep w).1
      trace := s.trace ++ (s.dt.workStep w).2.toList }
  | .enqueue job =>
    { s with dt := s.dt.Enqueue job, submitted := s.submitted ++ [job] }
  | .interrupt =>
    { s with dt := { s.dt with dispatcher_ := s.dt.dispatcher_.call .Interrupt } }
  | .setTerminate =>
    { s with dt := { s.dt with terminate_ := true } }

/-- A concurrent execution: the steps happen one after the other. -/
def run : List Event → System → System
  | [], s => s
  | e :: es, s => run es (step e s)

/-- The Jobs the dispatcher thread has called, oldest first. -/
def executed (s : System) : List Job :=
  s.trace.filterMap fun a =>
    match a with
    | .runJob job => some job
    | _ => none

/-- The Job the dispatcher thread has popped and not called yet, if any. -/
def inHand (s : System) : List Job :=
  match s.dt.thread_.pc with
  | .drainJob job => [job]
  | .resetBusy job => [job]
  | .recheckJob job => [job]
  | _ => []

/-- The value of `busy_` at each point of `Work()`: true from the assignment
`busy_ = true` up to the next assignment `busy_ = false`. -/
def busyAt : WorkPc → Bool
  | .recheck => true
  | .resetBusy _ => true
  | .callDispatch => true
  | .inDispatch => true
  | .clearBusy => true
  | _ => false

/-- The latest actions of the dispatcher thread at each point of `Work()`,
oldest first, as far as the point determines them. -/
def recentActions : WorkPc → List WorkAction
  | .loopTerminate => []
  | .loopHasWrites => [.readTerminate true]
  | .loopEmpty => [.readTerminate true, .hasAsyncWrites false]
  | .drain => []
  | .drainJob job => [.tryPop (some job)]
  | .setBusy => [.tryPop none]
  | .recheck => [.tryPop none, .setBusy true]
  | .resetBusy job => [.tryPop none, .setBusy true, .tryPop (some job)]
  | .recheckJob job => [.tryPop none, .setBusy true, .tryPop (some job), .setBusy false]
  | .callDispatch => [.tryPop none, .setBusy true, .tryPop none]
  | .inDispatch => [.tryPop none, .setBusy true, .tryPop none, .dispatchCall]
  | .clearBusy =>
    [.tryPop none, .setBusy true, .tryPop none, .dispatchCall, .dispatchReturn]
  | .returned => [.readTerminate true, .hasAsyncWrites false, .queueEmpty true]

/-- The points of the loop head that are reached only with `terminate_` set. -/
def pastTerminate : WorkPc → Bool
  | .loopHasWrites => true
  | .loopEmpty => true
  | .returned => true
  | _ => false

/-- The invariant of concurrent executions: `busy_` is determined by where the
dispatcher thread stands, its latest actions are those that lead there, the
points behind the test of `terminate_` are reached with the flag set, and the
Jobs submitted are those called, then the one in hand, then those queued. -/
structure Inv (s : System) : Prop where
  busy : s.dt.busy_ = busyAt s.dt.thread_.pc
  recent : recentActions s.dt.thread_.pc <:+ s.trace
  flag : pastTerminate s.dt.thread_.pc = true → s.dt.terminate_ = true
  fifo : s.submitted = s.executed ++ s.inHand ++ s.dt.jobqueue_.queue_

end System

/-- Where a producer stands inside one submission call: before `Enqueue`,
before the read of `busy_` in `WakeUpThread`, after it with the value read,
and after the call. -/
inductive ProducerPc
  | beforeEnqueue
  | beforeRead
  | afterRead (busy : Bool)
  | finished
deriving DecidableEq, Repr

/-- A dispatcher thread and one producer making one submission call, with the
record of where the dispatcher thread stood when the producer pushed and when
it read `busy_`, of the value it read, and of whether the dispatcher thread
called `Dispatch()` while the producer's Job was in the queue. -/
structure Race where
  sys : System
  producer : ProducerPc
  pushedAt : Option WorkPc
  readAt : Option WorkPc
  seen : Option Bool
  dispatchedUnseen : Bool
deriving DecidableEq, Repr

/-- Which of the two threads performs the next atomic step. -/
inductive RaceEvent
  | dispatcher (w : Bool)
  | producer
deriving DecidableEq, Repr

namespace Race

/-- Both threads at their start: the dispatcher thread at the head of the loop
of `Work()`, the producer about to call `Enqueue`. -/
def start (dispatcher : Dispatcher) : Race :=
  { sys := System.start dispatcher
    producer := .beforeEnqueue
    pushedAt := none
    readAt := none
    seen := none
    dispatchedUnseen := false }

/-- One atomic step of the two-thread system; `job` is the producer's Job. The
producer does `Enqueue(job)`, then reads `busy_`, then calls `Interrupt()` if
it read true. -/
def step (job : Job) (e : RaceEvent) (r : Race) : Race :=
  match e with
  | .dispatcher w =>
    { r with
      sys := r.sys.step (.work w)
      dispatchedUnseen := r.dispatchedUnseen ||
        (decide ((r.sys.dt.workStep w).2 = some .dispatchCall) &&
          decide (job ∈ r.sys.dt.jobqueue_.queue_)) }
  | .producer =>
    match r.producer with
    | .beforeEnqueue =>
      { r with
        sys := r.sys.step (.enqueue job)
        producer := .beforeRead
        pushedAt := some r.sys.dt.thread_.pc }
    | .beforeRead =>
      { r with
        producer := .afterRead r.sys.dt.busy_
        readAt := some r.sys.dt.thread_.pc
        seen := some r.sys.dt.busy_ }
    | .afterRead true =>
      { r with sys := r.sys.step .interrupt, producer := .finished }
    | .afterRead false =>
      { r with producer := .finished }
    | .finished => r

/-- An interleaving of the two threads. -/
def run (job : Job) : List RaceEvent → Race → Race
  | [], r => r
  | e :: es, r => run job es (step job e r)

/-- The invariant of the two-thread system: the shared state obeys the
invariant of concurrent executions; the value the producer read from `busy_`
is the one that belongs to the point where the dispatcher thread stood at that
moment; before its read the producer has seen nothing; and once the producer
has read false, the dispatcher thread is not about to block or blocked while
the queue holds a Job. -/
structure Inv (r : Race) : Prop where
  sys : System.Inv r.sys
  read : ∀ pc, r.readAt = some pc → r.seen = some (System.busyAt pc)
  unread : r.producer = .beforeEnqueue ∨ r.producer = .beforeRead → r.seen = none
  awake : r.seen = some false → r.sys.dt.jobqueue_.queue_ ≠ [] →
    r.sys.dt.thread_.pc ≠ .callDispatch ∧ r.sys.dt.thread_.pc ≠ .inDispatch

end Race

end net
end thrill

namespace thrill
namespace common
namespace QueueRun

variable {T : Type}

theorem flatten_perm_of_head (ps : List (List T)) :
    ∀ (i : Nat) (x : T) (rest : List T), ps[i]? = some (x :: rest) →
      List.Perm ps.flatten (x :: (ps.set i rest).flatten) := by
  induction ps with
  | nil => intro i x rest h; simp at h
  | cons p ps ih =>
    intro i x rest h
    cases i with
    | zero =>
      simp at h
      subst h
      simp
    | succ i =>
      simp at h
      have h1 := ih i x rest h
      simp only [List.set_cons_succ, List.flatten_cons]
      exact (List.Perm.append_left p h1).trans List.perm_middle

theorem flatten_nil_of_all_nil (ps : List (List T)) (h : ∀ r ∈ ps, r = []) :
    ps.flatten = [] := by
  induction ps with
  | nil => rfl
  | cons p ps ih =>
    have hp : p = [] := h p (by simp)
    have hps : ps.flatten = [] := ih (fun r hr => h r (by simp [hr]))
    simp [hp, hps]

/-- What one step does to the pending values and to the push order: either it
pushes nothing, or it pushes the next value `x` of some producer `i`. -/
theorem step_pending (e : QueueEvent) (r : QueueRun T) :
    ((step e r).pending = r.pending ∧
      ∀ sched, pushOrder (e :: sched) r.pending = pushOrder sched r.pending) ∨
    (∃ i x rest, r.pending[i]? = some (x :: rest) ∧
      (step e r).pending = r.pending.set i rest ∧
      ∀ sched, pushOrder (e :: sched) r.pending =
        x :: pushOrder sched (r.pending.set i rest)) := by
  obtain ⟨ps, ⟨q⟩, d, out⟩ := r
  cases e with
  | push i =>
    cases h : ps[i]? with
    | none => exact Or.inl ⟨by simp [step, h], by intro sched; simp [pushOrder, h]⟩
    | some p =>
      cases p with
      | nil => exact Or.inl ⟨by simp [step, h], by intro sched; simp [pushOrder, h]⟩
      | cons x rest =>
        exact Or.inr ⟨i, x, rest, h, by simp [step, h], by intro sched; simp [pushOrder, h]⟩
  | emplace i =>
    cases h : ps[i]? with
    | none => exact Or.inl ⟨by simp [step, h], by intro sched; simp [pushOrder, h]⟩
    | some p =>
      cases p with
      | nil => exact Or.inl ⟨by simp [step, h], by intro sched; simp [pushOrder, h]⟩
      | cons x rest =>
        exact Or.inr ⟨i, x, rest, h, by simp [step, h], by intro sched; simp [pushOrder, h]⟩
  | pop =>
    cases q with
    | nil =>
      exact Or.inl ⟨by simp [step, ConcurrentBoundedQueue.pop], by
        intro sched; simp [pushOrder]⟩
    | cons x rest =>
      exact Or.inl ⟨by simp [step, ConcurrentBoundedQueue.pop], by
        intro sched; simp [pushOrder]⟩
  | try_pop =>
    cases q with
    | nil =>
      exact Or.inl ⟨by simp [step, ConcurrentBoundedQueue.try_pop], by
        intro sched; simp [pushOrder]⟩
    | cons x rest =>
      exact Or.inl ⟨by simp [step, ConcurrentBoundedQueue.try_pop], by
        intro sched; simp [pushOrder]⟩

/-- One step keeps the values received, then queued, then pushed by the rest
of the schedule. -/
theorem step_fifo (e : QueueEvent) (sched : List QueueEvent) (r : QueueRun T) :
    (step e r).received ++ (step e r).queue.queue_ ++ pushOrder sched (step e r).pending =
      r.received ++ r.queue.queue_ ++ pushOrder (e :: sched) r.pending := by
  obtain ⟨ps, ⟨q⟩, d, out⟩ := r
  cases e with
  | push i =>
    cases h : ps[i]? with
    | none => simp [step, pushOrder, h]
    | some p =>
      cases p with
      | nil => simp [step, pushOrder, h]
      | cons x rest => simp [step, pushOrder, h, ConcurrentBoundedQueue.push]
  | emplace i =>
    cases h : ps[i]? with
    | none => simp [step, pushOrder, h]
    | some p =>
      cases p with
      | nil => simp [step, pushOrder, h]
      | cons x rest => simp [step, pushOrder, h, ConcurrentBoundedQueue.emplace]
  | pop =>
    cases q with
    | nil => simp [step, pushOrder, ConcurrentBoundedQueue.pop]
    | cons x rest => simp [step, pushOrder, ConcurrentBoundedQueue.pop]
  | try_pop =>
    cases q with
    | nil => simp [step, pushOrder, ConcurrentBoundedQueue.try_pop]
    | cons x rest => simp [step, pushOrder, ConcurrentBoundedQueue.try_pop]

/-- What a run keeps at every moment: the values received followed by the
values in the queue are the values pushed so far, in push order. -/
theorem exec_fifo (sched : List QueueEvent) :
    ∀ r : QueueRun T,
      (exec sched r).received ++ (exec sched r).queue.queue_ =
        r.received ++ r.queue.queue_ ++ pushOrder sched r.pending := by
  induction sched with
  | nil => intro r; simp [exec, pushOrder]
  | cons e sched ih =>
    intro r
    have h := ih (step e r)
    rw [step_fifo] at h
    exact h

/-- The values pushed in a run together with the values still pending when it
stops are, up to order, the values of the producers. -/
theorem pushOrder_perm (sched : List QueueEvent) :
    ∀ r : QueueRun T,
      List.Perm (pushOrder sched r.pending ++ (exec sched r).pending.flatten)
        r.pending.flatten := by
  induction sched with
  | nil => intro r; simp [exec, pushOrder]
  | cons e sched ih =>
    intro r
    have h := ih (step e r)
    rcases step_pending e r with ⟨h1, h2⟩ | ⟨i, x, rest, h0, h1, h2⟩
    · rw [h2 sched]
      rw [h1] at h
      exact h
    · rw [h2 sched]
      rw [h1] at h
      have h3 := flatten_perm_of_head r.pending i x rest h0
      simp only [List.cons_append]
      exact (List.Perm.cons x h).trans h3.symm

/-- The values of producer `k` are those it has pushed, which appear in the
push order in its program order, followed by those it has still pending. -/
theorem pushOrder_sublist (sched : List QueueEvent) :
    ∀ (r : QueueRun T) (k : Nat) (p : List T), r.pending[k]? = some p →
      ∃ pre rem, (exec sched r).pending[k]? = some rem ∧ p = pre ++ rem ∧
        List.Sublist pre (pushOrder sched r.pending) := by
  induction sched with
  | nil =>
    intro r k p h
    exact ⟨[], p, by simpa [exec] using h, rfl, by simp⟩
  | cons e sched ih =>
    intro r k p h
    rcases step_pending e r with ⟨h1, h2⟩ | ⟨i, x, rest, h0, h1, h2⟩
    · rw [h2 sched]
      have g := ih (step e r) k p (by rw [h1]; exact h)
      rw [h1] at g
      exact g
    · rw [h2 sched]
      by_cases hk : i = k
      · subst hk
        have hp : p = x :: rest := by
          rw [h0] at h
          exact (Option.some.inj h).symm
        have hlt : i < r.pending.length := by
          rcases List.getElem?_eq_some_iff.mp h0 with ⟨hlt, _⟩
          exact hlt
        have hset : (step e r).pending[i]? = some rest := by
          rw [h1]
          simp [List.getElem?_set, hlt]
        obtain ⟨pre, rem, g1, g2, g3⟩ := ih (step e r) i rest hset
        rw [h1] at g3
        refine ⟨x :: pre, rem, g1, ?_, List.Sublist.cons₂ x g3⟩
        rw [hp, g2]
        rfl
      · have hset : (step e r).pending[k]? = some p := by
          rw [h1, List.getElem?_set_ne hk]
          exact h
        obtain ⟨pre, rem, g1, g2, g3⟩ := ih (step e r) k p hset
        rw [h1] at g3
        exact ⟨pre, rem, g1, g2, List.Sublist.cons x g3⟩

/-- A consumer that makes at least as many retrievals as the queue holds
values, with no push in between, receives the whole contents of the queue in
order and leaves it empty. -/
theorem exec_consumerOnly (ks : List QueueEvent) :
    ∀ r : QueueRun T, consumerOnly ks → r.queue.size ≤ ks.length →
      (exec ks r).queue.queue_ = [] ∧
      (exec ks r).received = r.received ++ r.queue.queue_ ∧
      (exec ks r).pending = r.pending := by
  induction ks with
  | nil =>
    intro r _ hlen
    obtain ⟨ps, ⟨q⟩, d, out⟩ := r
    cases q with
    | nil => simp [exec]
    | cons x rest => simp [ConcurrentBoundedQueue.size] at hlen
  | cons k ks ih =>
    intro r hks hlen
    obtain ⟨ps, ⟨q⟩, d, out⟩ := r
    have hks' : consumerOnly ks := fun e he => hks e (by simp [he])
    have hk : k = QueueEvent.pop ∨ k = QueueEvent.try_pop := hks k (by simp)
    cases q with
    | nil =>
      rcases hk with hk | hk <;> subst hk <;>
        simpa [exec, step, ConcurrentBoundedQueue.pop, ConcurrentBoundedQueue.try_pop] using
          ih ⟨ps, ⟨[]⟩, d, out⟩ hks' (by simp [ConcurrentBoundedQueue.size])
    | cons x rest =>
      have hl : (⟨rest⟩ : ConcurrentBoundedQueue T).size ≤ ks.length := by
        simpa [ConcurrentBoundedQueue.size] using hlen
      rcases hk with hk | hk <;> subst hk <;>
        simpa [exec, step, ConcurrentBoundedQueue.pop, ConcurrentBoundedQueue.try_pop] using
          ih ⟨ps, ⟨rest⟩, x, out ++ [x]⟩ hks' hl

theorem exec_append (s1 s2 : List QueueEvent) :
    ∀ r : QueueRun T, exec (s1 ++ s2) r = exec s2 (exec s1 r) := by
  induction s1 with
  | nil => intro r; rfl
  | cons e s1 ih => intro r; exact ih _

/-- The summary of a finished run: all producers done and the queue popped
empty. -/
theorem exec_finished (sched : List QueueEvent) (ps : List (List T)) (d : T)
    (hdone : ∀ p ∈ (exec sched (start ps d)).pending, p = [])
    (hempty : (exec sched (start ps d)).queue.queue_ = []) :
    (exec sched (start ps d)).received = pushOrder sched ps ∧
    List.Perm (pushOrder sched ps) ps.flatten ∧
    (∀ p ∈ ps, List.Sublist p (pushOrder sched ps)) := by
  refine ⟨?_, ?_, ?_⟩
  · have h := exec_fifo sched (start ps d)
    rw [hempty] at h
    simpa [start, ConcurrentBoundedQueue.new] using h
  · have h := pushOrder_perm sched (start ps d)
    rw [flatten_nil_of_all_nil _ hdone] at h
    simpa [start] using h
  · intro p hp
    obtain ⟨k, hk⟩ := List.mem_iff_getElem?.mp hp
    obtain ⟨pre, rem, h1, h2, h3⟩ := pushOrder_sublist sched (start ps d) k p hk
    have hr : rem = [] := hdone rem (List.mem_iff_getElem?.mpr ⟨k, h1⟩)
    rw [h2, hr]
    simpa [start] using h3

/-- C1: FIFO without loss or duplication. In every concurrent run on an empty
queue, whatever the interleaving `sched` of the producers' pushes (`push` or
`emplace`) and the consumer's retrievals (`pop` or `try_pop`), the values
received followed by the values still queued are at every moment the values
pushed so far, in the order in which they were pushed. Popping until the queue
is empty is possible at any moment and delivers the queued values in order.
Once every producer has pushed all its values and the queue has been popped
empty, the values received are exactly the values pushed in push order; they
are a permutation of all the producers' values (each exactly once), the values
of each producer appear in that producer's own order, a single producer gets
back its list as it is, and with producers pushing 1..50 and 51..100 the
values received are a permutation of 1..100. -/
theorem fifo_no_loss_no_duplication (sched : List QueueEvent) (ps : List (List T)) (d : T) :
    (exec sched (start ps d)).received ++ (exec sched (start ps d)).queue.queue_ =
      pushOrder sched ps ∧
    (∀ ks, consumerOnly ks → (exec sched (start ps d)).queue.size ≤ ks.length →
      (exec (sched ++ ks) (start ps d)).queue.queue_ = [] ∧
      (exec (sched ++ ks) (start ps d)).received = pushOrder sched ps) ∧
    ((∀ p ∈ (exec sched (start ps d)).pending, p = []) →
      (exec sched (start ps d)).queue.queue_ = [] →
      (exec sched (start ps d)).received = pushOrder sched ps ∧
      List.Perm (exec sched (start ps d)).received ps.flatten ∧
      (∀ p ∈ ps, List.Sublist p (exec sched (start ps d)).received) ∧
      (∀ xs, ps = [xs] → (exec sched (start ps d)).received = xs)) ∧
    (∀ (s : List QueueEvent) (d0 : Nat),
      (∀ p ∈ (exec s (start [List.range' 1 50, List.range' 51 50] d0)).pending, p = []) →
      (exec s (start [List.range' 1 50, List.range' 51 50] d0)).queue.queue_ = [] →
      List.Perm (exec s (start [List.range' 1 50, List.range' 51 50] d0)).received
        (List.range' 1 100)) := by
  have hfifo : (exec sched (start ps d)).received ++ (exec sched (start ps d)).queue.queue_ =
      pushOrder sched ps := by
    simpa [start, ConcurrentBoundedQueue.new] using exec_fifo sched (start ps d)
  refine ⟨hfifo, ?_, ?_, ?_⟩
  · intro ks hks hlen
    obtain ⟨h1, h2, _⟩ := exec_consumerOnly ks (exec sched (start ps d)) hks hlen
    rw [exec_append]
    exact ⟨h1, h2.trans hfifo⟩
  · intro hdone hempty
    obtain ⟨h1, h2, h3⟩ := exec_finished sched ps d hdone hempty
    rw [h1]
    refine ⟨rfl, h2, h3, ?_⟩
    intro xs hxs
    subst hxs
    have hs : List.Sublist xs (pushOrder sched [xs]) := h3 xs (by simp)
    have hl : xs.length = (pushOrder sched [xs]).length := by
      simpa using h2.length_eq.symm
    exact (hs.eq_of_length hl).symm
  · intro s d0 hd he
    obtain ⟨g1, g2, _⟩ := exec_finished s [List.range' 1 50, List.range' 51 50] d0 hd he
    rw [g1]
    have hflat : [List.range' 1 50, List.range' 51 50].flatten = List.range' 1 100 := by
      decide
    rw [← hflat]
    exact g2

/-- C1, at a concrete run: two producers with `[1, 2]` and `[3, 4]`; the
pushes reach the queue in the order 3, 1, 2, 4, the consumer popping in
between (once on the empty queue, where `try_pop` gets nothing) with `pop` and
`try_pop`; it receives `[3, 1, 2, 4]`. -/
theorem fifo_no_loss_no_duplication_witness :
    (exec [.try_pop, .push 1, .pop, .emplace 0, .push 0, .try_pop, .emplace 1, .pop, .try_pop]
      (start [[1, 2], [3, 4]] 0)).received = [3, 1, 2, 4] ∧
    List.Sublist [1, 2] [3, 1, 2, 4] ∧ List.Sublist [3, 4] [3, 1, 2, 4] := by
  have h := (fifo_no_loss_no_duplication
    [.try_pop, .push 1, .pop, .emplace 0, .push 0, .try_pop, .emplace 1, .pop, .try_pop]
    [[1, 2], [3, 4]] (0 : Nat)).2.2.1 (by decide) (by decide)
  have e : pushOrder
      [.try_pop, .push 1, .pop, .emplace 0, .push 0, .try_pop, .emplace 1, .pop, .try_pop]
      [[1, 2], [3, 4]] = [3, 1, 2, 4] := by decide
  refine ⟨h.1.trans e, ?_, ?_⟩
  · exact e ▸ (h.1 ▸ h.2.2.1 [1, 2] (by simp))
  · exact e ▸ (h.1 ▸ h.2.2.1 [3, 4] (by simp))

end QueueRun

namespace ConcurrentBoundedQueue

variable {T : Type}

/-- C2: `try_pop` on an empty queue returns false, does not write the
destination and leaves the queue as it was (empty, size 0); on a non-empty
queue it returns true, puts the front element into the destination and leaves
the queue without its front element, one element shorter. -/
theorem try_pop_empty_or_front (q : ConcurrentBoundedQueue T) (destination : T) :
    (q.empty = true →
      q.try_pop destination = (false, destination, q) ∧
      (q.try_pop destination).2.2.size = 0 ∧
      (q.try_pop destination).2.2.empty = true) ∧
    (q.empty = false →
      ∃ front rest, q.queue_ = front :: rest ∧
        q.try_pop destination = (true, front, ⟨rest⟩) ∧
        (q.try_pop destination).2.2.size + 1 = q.size) := by
  cases q with
  | mk l =>
    cases l with
    | nil => simp [try_pop, empty, size]
    | cons x xs => simp [try_pop, empty, size]

/-- C2, at concrete queues: on the empty queue `try_pop` gives false and keeps
the destination 7; on the queue 1, 2, 3 it gives true, delivers 1 and leaves
2, 3. -/
theorem try_pop_empty_or_front_witness :
    (new : ConcurrentBoundedQueue Nat).try_pop 7 = (false, 7, new) ∧
    (⟨[1, 2, 3]⟩ : ConcurrentBoundedQueue Nat).try_pop 7 = (true, 1, ⟨[2, 3]⟩) := by
  refine ⟨((try_pop_empty_or_front (new : ConcurrentBoundedQueue Nat) 7).1 (by decide)).1, ?_⟩
  obtain ⟨front, rest, h1, h2, _⟩ :=
    (try_pop_empty_or_front (⟨[1, 2, 3]⟩ : ConcurrentBoundedQueue Nat) 7).2 (by decide)
  simp only [List.cons.injEq] at h1
  obtain ⟨hf, hr⟩ := h1
  rw [h2, ← hf, ← hr]

end ConcurrentBoundedQueue
end common
end thrill

namespace thrill
namespace net

open DispatcherThread

theorem Submission.apply_eq (call : Submission) (s : DispatcherThread) :
    call.apply s =
      if call.asserted then .ok (WakeUpThread (Enqueue s call.job)) else .error s := by
  cases call <;>
    simp [Submission.apply, Submission.asserted, Submission.job, DispatcherThread.AddTimer,
      DispatcherThread.AddRead, DispatcherThread.AddWrite, DispatcherThread.Cancel,
      DispatcherThread.AsyncRead, DispatcherThread.AsyncReadBlock, DispatcherThread.AsyncWrite,
      DispatcherThread.AsyncWriteBlock, DispatcherThread.AsyncWriteCopy,
      DispatcherThread.AsyncWriteCopyString]

theorem Dispatcher.interrupts_call (d : Dispatcher) (c : DispatcherCall) :
    (d.call c).interrupts = d.interrupts + (if c = .Interrupt then 1 else 0) := by
  by_cases h : c = .Interrupt
  · subst h
    simp [Dispatcher.call, Dispatcher.interrupts]
  · have h' : ¬ (DispatcherCall.Interrupt = c) := fun e => h e.symm
    simp [Dispatcher.call, Dispatcher.interrupts, List.count_append, List.count_cons, h, h']

theorem Job.run_calls (job : Job) (d : Dispatcher) :
    (job.run d).calls = d.calls ++ job.body := by
  unfold Job.run
  generalize job.body = l
  induction l generalizing d with
  | nil => simp
  | cons c l ih => simp [List.foldl_cons, ih, Dispatcher.call]

theorem Job.interrupt_not_mem_body (job : Job) : DispatcherCall.Interrupt ∉ job.body := by
  cases job <;> simp [Job.body]

theorem Job.dispatch_not_mem_body (job : Job) : DispatcherCall.Dispatch ∉ job.body := by
  cases job <;> simp [Job.body]

theorem Job.run_interrupts (job : Job) (d : Dispatcher) :
    (job.run d).interrupts = d.interrupts := by
  simp [Dispatcher.interrupts, Job.run_calls, List.count_append,
    List.count_eq_zero_of_not_mem (Job.interrupt_not_mem_body job)]

end net
end thrill

namespace thrill
namespace net
namespace DispatcherThread

/-- C3, as stated, fails at the largest sequence number: the two-buffer
`AsyncWrite` with `seq = 4294967295` enqueues one Job whose second
registration is tagged 0, not 4294967296. -/
theorem asyncWriteBlock_seq_wraps :
    (new ⟨[]⟩).AsyncWriteBlock ⟨0⟩ 4294967295 ⟨true, []⟩ ⟨true, []⟩ ⟨0⟩ =
      .ok (Enqueue (new ⟨[]⟩) (.AsyncWriteBlock ⟨0⟩ 4294967295 ⟨true, []⟩ ⟨true, []⟩ ⟨0⟩)) ∧
    ((Job.AsyncWriteBlock ⟨0⟩ 4294967295 ⟨true, []⟩ ⟨true, []⟩ ⟨0⟩).run ⟨[]⟩).calls =
      [.AsyncWrite ⟨0⟩ 4294967295 ⟨true, []⟩ none,
       .AsyncWriteBlock ⟨0⟩ 0 ⟨true, []⟩ (some ⟨0⟩)] ∧
    ((Job.AsyncWriteBlock ⟨0⟩ 4294967295 ⟨true, []⟩ ⟨true, []⟩ ⟨0⟩).run ⟨[]⟩).calls ≠
      [.AsyncWrite ⟨0⟩ 4294967295 ⟨true, []⟩ none,
       .AsyncWriteBlock ⟨0⟩ (4294967295 + 1) ⟨true, []⟩ (some ⟨0⟩)] := by
  refine ⟨rfl, by decide, by decide⟩

/-- C3, amended: for every connection, every 32-bit `seq`, every header buffer
and every valid payload block (of any length), the two-buffer `AsyncWrite`
enqueues exactly one Job at the back of the queue, and executing that Job
makes exactly two write registrations on the event loop, in this order: the
header buffer tagged `seq` without callback, then the payload block tagged
`(seq + 1) mod 2^32` with the caller's callback. The second tag is `seq + 1`
unless `seq = 2^32 - 1`, where it is 0. -/
theorem asyncWriteBlock_header_then_payload (s : DispatcherThread) (c : Connection)
    (seq : Nat) (header : Buffer) (payload : PinnedBlock) (done_cb : Callback)
    (hseq : seq < UINT32_SIZE) (hvalid : payload.valid = true) :
    ∃ job,
      s.AsyncWriteBlock c seq header payload done_cb = .ok (WakeUpThread (Enqueue s job)) ∧
      (WakeUpThread (Enqueue s job)).jobqueue_.queue_ = s.jobqueue_.queue_ ++ [job] ∧
      (∀ d : Dispatcher, (job.run d).calls = d.calls ++
        [.AsyncWrite c seq header none,
         .AsyncWriteBlock c ((seq + 1) % UINT32_SIZE) payload (some done_cb)]) ∧
      (seq + 1) % UINT32_SIZE < UINT32_SIZE ∧
      (seq + 1) % UINT32_SIZE = (if seq + 1 = UINT32_SIZE then 0 else seq + 1) := by
  refine ⟨.AsyncWriteBlock c seq header payload done_cb, ?_, ?_, ?_, ?_, ?_⟩
  · simp [AsyncWriteBlock, hvalid]
  · unfold WakeUpThread Enqueue
    split <;> simp [common.ConcurrentBoundedQueue.push]
  · intro d
    rw [Job.run_calls]
    rfl
  · exact Nat.mod_lt _ (by unfold UINT32_SIZE; omega)
  · by_cases h : seq + 1 = UINT32_SIZE
    · rw [if_pos h, h]
      exact Nat.mod_self _
    · rw [if_neg h]
      exact Nat.mod_eq_of_lt (by omega)

/-- C3, amended, at a concrete call: `seq = 10`, a zero-length header and a
zero-length valid payload; the Job registers the header tagged 10 without
callback and then the payload tagged 11 with the callback. -/
theorem asyncWriteBlock_header_then_payload_witness :
    ∃ job,
      (new ⟨[]⟩).AsyncWriteBlock ⟨1⟩ 10 ⟨true, []⟩ ⟨true, []⟩ ⟨5⟩ =
        .ok (WakeUpThread (Enqueue (new ⟨[]⟩) job)) ∧
      (job.run ⟨[]⟩).calls =
        [.AsyncWrite ⟨1⟩ 10 ⟨true, []⟩ none, .AsyncWriteBlock ⟨1⟩ 11 ⟨true, []⟩ (some ⟨5⟩)] := by
  obtain ⟨job, h1, _, h3, _, h5⟩ :=
    asyncWriteBlock_header_then_payload (new ⟨[]⟩) ⟨1⟩ 10 ⟨true, []⟩ ⟨true, []⟩ ⟨5⟩
      (by decide) rfl
  refine ⟨job, h1, ?_⟩
  rw [h3 ⟨[]⟩, h5]
  rfl

/-- C6: every submission call whose assertion (if it has one) holds returns,
having first pushed exactly one Job, the one built from its arguments, at the
back of the queue and then run the wake step, which calls `Interrupt()` if and
only if `busy_` is true at that moment: with `busy_` false the call changes
nothing but the job queue and the event loop receives no call; with `busy_`
true the event loop receives exactly one call, an `Interrupt()`. No flag and
nothing of the thread changes. The wake step by itself, in whatever state it
runs, makes one `Interrupt()` call when it finds `busy_` true and does nothing
when it finds `busy_` false. -/
theorem submission_pushes_then_wakes (call : Submission) (s : DispatcherThread)
    (h : call.asserted = true) :
    call.apply s = .ok (WakeUpThread (Enqueue s call.job)) ∧
    (WakeUpThread (Enqueue s call.job)).jobqueue_.queue_ =
      s.jobqueue_.queue_ ++ [call.job] ∧
    (WakeUpThread (Enqueue s call.job)).dispatcher_.interrupts =
      s.dispatcher_.interrupts + (if s.busy_ then 1 else 0) ∧
    (s.busy_ = true →
      (WakeUpThread (Enqueue s call.job)).dispatcher_.calls =
        s.dispatcher_.calls ++ [.Interrupt]) ∧
    (s.busy_ = false →
      WakeUpThread (Enqueue s call.job) =
        { s with jobqueue_ := s.jobqueue_.push call.job }) ∧
    (WakeUpThread (Enqueue s call.job)).busy_ = s.busy_ ∧
    (WakeUpThread (Enqueue s call.job)).terminate_ = s.terminate_ ∧
    (WakeUpThread (Enqueue s call.job)).thread_ = s.thread_ ∧
    (∀ s1 : DispatcherThread,
      (s1.busy_ = true →
        WakeUpThread s1 = { s1 with dispatcher_ := ⟨s1.dispatcher_.calls ++ [.Interrupt]⟩ }) ∧
      (s1.busy_ = false → WakeUpThread s1 = s1)) := by
  refine ⟨?_, ?_, ?_, ?_, ?_, ?_, ?_, ?_, ?_⟩
  · rw [Submission.apply_eq, h]
    rfl
  case refine_9 =>
    intro s1
    unfold WakeUpThread
    cases hb : s1.busy_ <;> simp [Dispatcher.call]
  all_goals
    unfold WakeUpThread Enqueue
    cases hb : s.busy_ <;>
      simp [common.ConcurrentBoundedQueue.push, Dispatcher.interrupts, Dispatcher.call,
        List.count_append]

/-- C6, at concrete calls: `Cancel` on an idle dispatcher thread only appends
its Job; the same call with `busy_` set appends the Job and makes one
`Interrupt()` call. -/
theorem submission_pushes_then_wakes_witness :
    (Submission.Cancel ⟨3⟩).apply (new ⟨[]⟩) =
      .ok { new ⟨[]⟩ with jobqueue_ := ⟨[.Cancel ⟨3⟩]⟩ } ∧
    (Submission.Cancel ⟨3⟩).apply { new ⟨[]⟩ with busy_ := true } =
      .ok { new ⟨[]⟩ with
            busy_ := true, jobqueue_ := ⟨[.Cancel ⟨3⟩]⟩, dispatcher_ := ⟨[.Interrupt]⟩ } := by
  refine ⟨?_, ?_⟩
  · exact (submission_pushes_then_wakes (.Cancel ⟨3⟩) (new ⟨[]⟩) rfl).1
  · exact (submission_pushes_then_wakes (.Cancel ⟨3⟩) { new ⟨[]⟩ with busy_ := true } rfl).1

/-- C8, as stated, fails for buffers: `AsyncWrite` of one invalid buffer
returns normally with its Job enqueued, and so does the two-buffer
`AsyncWrite` with an invalid header buffer and a valid block. -/
theorem invalid_buffer_is_enqueued :
    false ∈ (Submission.AsyncWrite ⟨0⟩ 0 ⟨false, []⟩ ⟨0⟩).ownedValid ∧
    (Submission.AsyncWrite ⟨0⟩ 0 ⟨false, []⟩ ⟨0⟩).apply (new ⟨[]⟩) =
      .ok { new ⟨[]⟩ with jobqueue_ := ⟨[.AsyncWrite ⟨0⟩ 0 ⟨false, []⟩ ⟨0⟩]⟩ } ∧
    false ∈ (Submission.AsyncWriteBlock ⟨0⟩ 0 ⟨false, []⟩ ⟨true, []⟩ ⟨0⟩).ownedValid ∧
    (Submission.AsyncWriteBlock ⟨0⟩ 0 ⟨false, []⟩ ⟨true, []⟩ ⟨0⟩).apply (new ⟨[]⟩) =
      .ok { new ⟨[]⟩ with
            jobqueue_ := ⟨[.AsyncWriteBlock ⟨0⟩ 0 ⟨false, []⟩ ⟨true, []⟩ ⟨0⟩]⟩ } := by
  refine ⟨by decide, rfl, by decide, rfl⟩

/-- C8, amended: the submission calls that take a pinned block (`AsyncRead`
into a block, `AsyncWrite` of header buffer plus payload block) assert that the
block is valid, and on an invalid block they stop before any Job is enqueued,
with the job queue, the event loop and everything else unchanged. Buffers are
not checked: `AsyncWrite` of one buffer has no assertion and enqueues its Job
whether the buffer is valid or not, and the two-buffer `AsyncWrite` with a
valid block enqueues its Job whether the header buffer is valid or not. -/
theorem block_asserted_buffer_unchecked (s : DispatcherThread) (c : Connection)
    (seq size : Nat) (done_cb : Callback) :
    (∀ block : PinnedByteBlockPtr, block.valid = false →
      s.AsyncReadBlock c seq size block done_cb = .error s) ∧
    (∀ (buffer : Buffer) (block : PinnedBlock), block.valid = false →
      s.AsyncWriteBlock c seq buffer block done_cb = .error s) ∧
    (∀ block : PinnedByteBlockPtr, block.valid = true →
      s.AsyncReadBlock c seq size block done_cb =
        .ok (WakeUpThread (Enqueue s (.AsyncReadBlock c seq size block done_cb)))) ∧
    (∀ buffer : Buffer,
      s.AsyncWrite c seq buffer done_cb =
        WakeUpThread (Enqueue s (.AsyncWrite c seq buffer done_cb))) ∧
    (∀ (buffer : Buffer) (block : PinnedBlock), block.valid = true →
      s.AsyncWriteBlock c seq buffer block done_cb =
        .ok (WakeUpThread (Enqueue s (.AsyncWriteBlock c seq buffer block done_cb)))) := by
  refine ⟨?_, ?_, ?_, ?_, ?_⟩
  · intro block h
    simp [AsyncReadBlock, h]
  · intro buffer block h
    simp [AsyncWriteBlock, h]
  · intro block h
    simp [AsyncReadBlock, h]
  · intro buffer
    rfl
  · intro buffer block h
    simp [AsyncWriteBlock, h]

/-- C8, amended, at concrete calls: with an invalid block both asserting calls
stop with the state untouched, while an invalid header buffer next to a valid
block is enqueued. -/
theorem block_asserted_buffer_unchecked_witness :
    (new ⟨[]⟩).AsyncReadBlock ⟨0⟩ 0 8 ⟨false, 8⟩ ⟨0⟩ = .error (new ⟨[]⟩) ∧
    (new ⟨[]⟩).AsyncWriteBlock ⟨0⟩ 0 ⟨true, [1]⟩ ⟨false, []⟩ ⟨0⟩ = .error (new ⟨[]⟩) ∧
    (new ⟨[]⟩).AsyncWriteBlock ⟨0⟩ 0 ⟨false, []⟩ ⟨true, [1]⟩ ⟨0⟩ =
      .ok (WakeUpThread
        (Enqueue (new ⟨[]⟩) (.AsyncWriteBlock ⟨0⟩ 0 ⟨false, []⟩ ⟨true, [1]⟩ ⟨0⟩))) := by
  have h := block_asserted_buffer_unchecked (new ⟨[]⟩) ⟨0⟩ 0 8 ⟨0⟩
  exact ⟨h.1 ⟨false, 8⟩ rfl, h.2.1 ⟨true, [1]⟩ ⟨false, []⟩ rfl,
    h.2.2.2.2 ⟨false, []⟩ ⟨true, [1]⟩ rfl⟩

end DispatcherThread
end net
end thrill

namespace thrill
namespace net
namespace DispatcherThread

theorem workStep_terminate (w : Bool) (s : DispatcherThread) :
    (workStep w s).1.terminate_ = s.terminate_ := by
  obtain ⟨d, ⟨q⟩, b, t, ⟨pc, jn⟩⟩ := s
  cases pc <;> cases q <;> cases w <;> cases t <;>
    simp [workStep, goto, common.ConcurrentBoundedQueue.try_pop,
      common.ConcurrentBoundedQueue.empty]

theorem workStep_interrupts (w : Bool) (s : DispatcherThread) :
    (workStep w s).1.dispatcher_.interrupts = s.dispatcher_.interrupts := by
  obtain ⟨d, ⟨q⟩, b, t, ⟨pc, jn⟩⟩ := s
  cases pc <;> cases q <;> cases w <;> cases t <;>
    simp [workStep, goto, common.ConcurrentBoundedQueue.try_pop,
      common.ConcurrentBoundedQueue.empty, Job.run_interrupts, Dispatcher.interrupts_call]

theorem runWork_terminate (ws : List Bool) :
    ∀ s : DispatcherThread, (runWork ws s).terminate_ = s.terminate_ := by
  induction ws with
  | nil => intro s; rfl
  | cons w ws ih => intro s; exact (ih _).trans (workStep_terminate w s)

theorem runWork_interrupts (ws : List Bool) :
    ∀ s : DispatcherThread,
      (runWork ws s).dispatcher_.interrupts = s.dispatcher_.interrupts := by
  induction ws with
  | nil => intro s; rfl
  | cons w ws ih => intro s; exact (ih _).trans (workStep_interrupts w s)

theorem runWork_append (ws1 ws2 : List Bool) :
    ∀ s : DispatcherThread, runWork (ws1 ++ ws2) s = runWork ws2 (runWork ws1 s) := by
  induction ws1 with
  | nil => intro s; rfl
  | cons w ws ih => intro s; exact ih _

theorem finishes_of_steps (k : Nat) (s : DispatcherThread)
    (h : Finishes (runWork (List.replicate k false) s)) : Finishes s := by
  obtain ⟨n, hn⟩ := h
  refine ⟨k + n, ?_⟩
  rw [List.replicate_add, runWork_append]
  exact hn

theorem finishes_drain (q : List Job) :
    ∀ (d : Dispatcher) (b jn : Bool), Finishes ⟨d, ⟨q⟩, b, true, ⟨.drain, jn⟩⟩ := by
  induction q with
  | nil => intro d b jn; exact ⟨9, rfl⟩
  | cons job rest ih =>
    intro d b jn
    exact finishes_of_steps 2 _ (ih (job.run d) b jn)

theorem finishes_loopTerminate (q : List Job) (d : Dispatcher) (b jn : Bool) :
    Finishes ⟨d, ⟨q⟩, b, true, ⟨.loopTerminate, jn⟩⟩ := by
  cases q with
  | nil => exact ⟨3, rfl⟩
  | cons job rest => exact finishes_of_steps 3 _ (finishes_drain (job :: rest) d b jn)

theorem finishes (s : DispatcherThread) (h : s.terminate_ = true) : Finishes s := by
  obtain ⟨d, ⟨q⟩, b, t, ⟨pc, jn⟩⟩ := s
  simp only at h
  subst h
  cases pc with
  | loopTerminate => exact finishes_loopTerminate q d b jn
  | loopHasWrites =>
    cases q with
    | nil => exact ⟨2, rfl⟩
    | cons job rest => exact finishes_of_steps 2 _ (finishes_drain (job :: rest) d b jn)
  | loopEmpty =>
    cases q with
    | nil => exact ⟨1, rfl⟩
    | cons job rest => exact finishes_of_steps 1 _ (finishes_drain (job :: rest) d b jn)
  | drain => exact finishes_drain q d b jn
  | drainJob job => exact finishes_of_steps 1 _ (finishes_drain q (job.run d) b jn)
  | setBusy =>
    cases q with
    | nil => exact ⟨8, rfl⟩
    | cons job rest =>
      exact finishes_of_steps 4 _ (finishes_loopTerminate rest (job.run d) false jn)
  | recheck =>
    cases q with
    | nil => exact ⟨7, rfl⟩
    | cons job rest =>
      exact finishes_of_steps 3 _ (finishes_loopTerminate rest (job.run d) false jn)
  | resetBusy job =>
    exact finishes_of_steps 2 _ (finishes_loopTerminate q (job.run d) false jn)
  | recheckJob job =>
    exact finishes_of_steps 1 _ (finishes_loopTerminate q (job.run d) b jn)
  | callDispatch =>
    exact finishes_of_steps 3 _ (finishes_loopTerminate q (d.call .Dispatch) false jn)
  | inDispatch => exact finishes_of_steps 2 _ (finishes_loopTerminate q d false jn)
  | clearBusy => exact finishes_of_steps 1 _ (finishes_loopTerminate q d false jn)
  | returned => exact ⟨0, rfl⟩

theorem wakeUpThread_terminate (s : DispatcherThread) :
    (WakeUpThread s).terminate_ = s.terminate_ := by
  unfold WakeUpThread
  split <;> rfl

theorem wakeUpThread_joinable (s : DispatcherThread) :
    (WakeUpThread s).thread_.joinable = s.thread_.joinable := by
  unfold WakeUpThread
  split <;> rfl

theorem wakeUpThread_interrupts (s : DispatcherThread) :
    (WakeUpThread s).dispatcher_.interrupts =
      s.dispatcher_.interrupts + (if s.busy_ then 1 else 0) := by
  unfold WakeUpThread
  cases s.busy_ <;> simp [Dispatcher.interrupts_call]

end DispatcherThread
end net
end thrill

namespace thrill
namespace net
namespace System

theorem suffix_snoc {α : Type} {l t : List α} (h : l <:+ t) (a : α) :
    l ++ [a] <:+ t ++ [a] := by
  obtain ⟨p, rfl⟩ := h
  exact ⟨p, by simp⟩

theorem inv_start (dispatcher : Dispatcher) : Inv (start dispatcher) := by
  refine ⟨rfl, ?_, ?_, rfl⟩
  · exact List.nil_suffix
  · intro h
    simp [start, DispatcherThread.new, pastTerminate] at h

theorem inv_step (e : Event) (s : System) (h : Inv s) : Inv (step e s) := by
  obtain ⟨hb, hr, hf, hq⟩ := h
  obtain ⟨⟨d, ⟨q⟩, b, t, ⟨pc, jn⟩⟩, tr, sub⟩ := s
  simp only at hb hr hf hq
  cases e with
  | enqueue job =>
    refine ⟨hb, hr, hf, ?_⟩
    simp only [step, DispatcherThread.Enqueue, common.ConcurrentBoundedQueue.push,
      executed, inHand] at hq ⊢
    rw [hq]
    simp
  | interrupt => exact ⟨hb, hr, hf, hq⟩
  | setTerminate =>
    refine ⟨hb, hr, ?_, hq⟩
    intro _
    rfl
  | work w =>
    cases pc
    case loopTerminate =>
      cases t <;>
      (refine ⟨?_, ?_, ?_, ?_⟩ <;>
        simp_all [step, DispatcherThread.workStep, DispatcherThread.goto, busyAt, recentActions,
          pastTerminate, executed, inHand, common.ConcurrentBoundedQueue.try_pop,
          common.ConcurrentBoundedQueue.empty])
    case loopHasWrites =>
      cases w <;>
      (refine ⟨?_, ?_, ?_, ?_⟩ <;>
        simp_all [step, DispatcherThread.workStep, DispatcherThread.goto, busyAt, recentActions,
          pastTerminate, executed, inHand, common.ConcurrentBoundedQueue.try_pop,
          common.ConcurrentBoundedQueue.empty])
      exact suffix_snoc hr _
    case loopEmpty =>
      cases q <;>
      (refine ⟨?_, ?_, ?_, ?_⟩ <;>
        simp_all [step, DispatcherThread.workStep, DispatcherThread.goto, busyAt, recentActions,
          pastTerminate, executed, inHand, common.ConcurrentBoundedQueue.try_pop,
          common.ConcurrentBoundedQueue.empty])
      exact suffix_snoc hr _
    case drain =>
      cases q <;>
      (refine ⟨?_, ?_, ?_, ?_⟩ <;>
        simp_all [step, DispatcherThread.workStep, DispatcherThread.goto, busyAt, recentActions,
          pastTerminate, executed, inHand, common.ConcurrentBoundedQueue.try_pop,
          common.ConcurrentBoundedQueue.empty])
    case recheck =>
      cases q <;>
      (refine ⟨?_, ?_, ?_, ?_⟩ <;>
        simp_all [step, DispatcherThread.workStep, DispatcherThread.goto, busyAt, recentActions,
          pastTerminate, executed, inHand, common.ConcurrentBoundedQueue.try_pop,
          common.ConcurrentBoundedQueue.empty]) <;>
      exact suffix_snoc hr _
    case returned =>
      (refine ⟨?_, ?_, ?_, ?_⟩ <;>
        simp_all [step, DispatcherThread.workStep, DispatcherThread.goto, busyAt, recentActions,
          pastTerminate, executed, inHand, common.ConcurrentBoundedQueue.try_pop,
          common.ConcurrentBoundedQueue.empty])
    case drainJob =>
      (refine ⟨?_, ?_, ?_, ?_⟩ <;>
        simp_all [step, DispatcherThread.workStep, DispatcherThread.goto, busyAt, recentActions,
          pastTerminate, executed, inHand, common.ConcurrentBoundedQueue.try_pop,
          common.ConcurrentBoundedQueue.empty])
    case recheckJob =>
      (refine ⟨?_, ?_, ?_, ?_⟩ <;>
        simp_all [step, DispatcherThread.workStep, DispatcherThread.goto, busyAt, recentActions,
          pastTerminate, executed, inHand, common.ConcurrentBoundedQueue.try_pop,
          common.ConcurrentBoundedQueue.empty])
    case clearBusy =>
      (refine ⟨?_, ?_, ?_, ?_⟩ <;>
        simp_all [step, DispatcherThread.workStep, DispatcherThread.goto, busyAt, recentActions,
          pastTerminate, executed, inHand, common.ConcurrentBoundedQueue.try_pop,
          common.ConcurrentBoundedQueue.empty])
    all_goals
      (refine ⟨?_, ?_, ?_, ?_⟩ <;>
        simp_all [step, DispatcherThread.workStep, DispatcherThread.goto, busyAt, recentActions,
          pastTerminate, executed, inHand, common.ConcurrentBoundedQueue.try_pop,
          common.ConcurrentBoundedQueue.empty])
      exact suffix_snoc hr _

theorem inv_run (es : List Event) : ∀ s : System, Inv s → Inv (run es s) := by
  induction es with
  | nil => intro s h; exact h
  | cons e es ih => intro s h; exact ih _ (inv_step e s h)

theorem inv_reachable (dispatcher : Dispatcher) (es : List Event) :
    Inv (run es (start dispatcher)) :=
  inv_run es _ (inv_start dispatcher)

/-- C4: in every concurrent execution, once `Work()` has returned,
`terminate_` is set and the last three actions of the dispatcher thread were
the loop test reading `terminate_` as true, `HasAsyncWrites()` as false and
the queue as empty; the step that returns is the test of the queue, made with
the queue empty. As long as one of the three conditions fails at the loop
head, the thread enters the loop body again: with `terminate_` unset, with
`HasAsyncWrites()` true, or with a Job queued, each also after termination
was requested. When no other thread acts during the test, `Work()` returns
from the loop head exactly when all three conditions hold. -/
theorem work_returns_only_when_drained (dispatcher : Dispatcher) (es : List Event)
    (s : System) (hs : s = run es (start dispatcher)) :
    (s.dt.thread_.pc = .returned →
      s.dt.terminate_ = true ∧
      [.readTerminate true, .hasAsyncWrites false, .queueEmpty true] <:+ s.trace) ∧
    (∀ w, s.dt.thread_.pc ≠ .returned → (s.dt.workStep w).1.thread_.pc = .returned →
      s.dt.thread_.pc = .loopEmpty ∧ s.dt.terminate_ = true ∧
      s.dt.jobqueue_.queue_ = [] ∧
      [.readTerminate true, .hasAsyncWrites false] <:+ s.trace ∧
      (s.dt.workStep w).2 = some (.queueEmpty true)) ∧
    (∀ w, s.dt.thread_.pc = .loopTerminate → s.dt.terminate_ = false →
      (s.dt.workStep w).1.thread_.pc = .drain) ∧
    (∀ w, s.dt.thread_.pc = .loopHasWrites → w = true →
      s.dt.terminate_ = true ∧ (s.dt.workStep w).1.thread_.pc = .drain) ∧
    (∀ w, s.dt.thread_.pc = .loopEmpty → s.dt.jobqueue_.queue_ ≠ [] →
      s.dt.terminate_ = true ∧ (s.dt.workStep w).1.thread_.pc = .drain) ∧
    (∀ w, s.dt.thread_.pc = .loopTerminate →
      ((s.dt.runWork [w, w, w]).thread_.pc = .returned ↔
        s.dt.terminate_ = true ∧ w = false ∧ s.dt.jobqueue_.queue_ = [])) := by
  have hinv : Inv s := hs ▸ inv_reachable dispatcher es
  clear hs
  obtain ⟨hb, hr, hf, hq⟩ := hinv
  obtain ⟨⟨d, ⟨q⟩, b, t, ⟨pc, jn⟩⟩, tr, sub⟩ := s
  simp only at hb hr hf hq
  refine ⟨?_, ?_, ?_, ?_, ?_, ?_⟩
  · intro h
    simp only at h
    subst h
    exact ⟨hf rfl, hr⟩
  · intro w h1 h2
    cases pc <;> cases q <;> cases w <;> cases t <;>
      simp_all [DispatcherThread.workStep, DispatcherThread.goto, recentActions,
        pastTerminate, common.ConcurrentBoundedQueue.try_pop,
        common.ConcurrentBoundedQueue.empty]
  · intro w h1 h2
    simp only at h1 h2
    subst h1 h2
    simp [DispatcherThread.workStep, DispatcherThread.goto]
  · intro w h1 h2
    simp only at h1
    subst h1 h2
    exact ⟨hf rfl, by simp [DispatcherThread.workStep, DispatcherThread.goto]⟩
  · intro w h1 h2
    simp only at h1 h2
    subst h1
    refine ⟨hf rfl, ?_⟩
    cases q with
    | nil => exact absurd rfl h2
    | cons j r =>
      simp [DispatcherThread.workStep, DispatcherThread.goto,
        common.ConcurrentBoundedQueue.empty]
  · intro w h1
    simp only at h1
    subst h1
    cases q <;> cases w <;> cases t <;>
      simp [DispatcherThread.runWork, DispatcherThread.workStep, DispatcherThread.goto,
        common.ConcurrentBoundedQueue.try_pop, common.ConcurrentBoundedQueue.empty]

/-- C4, at concrete executions: with termination requested and nothing
pending, three steps of the loop head return from `Work()`, the three reads
being the last actions; with a Job still queued the test of the queue sends
the thread back into the loop body. -/
theorem work_returns_only_when_drained_witness :
    ((run [.setTerminate, .work false, .work false, .work false]
        (start ⟨[]⟩)).dt.terminate_ = true ∧
      [.readTerminate true, .hasAsyncWrites false, .queueEmpty true] <:+
        (run [.setTerminate, .work false, .work false, .work false] (start ⟨[]⟩)).trace) ∧
    ((run [.enqueue (.Cancel ⟨1⟩), .setTerminate, .work false, .work false]
        (start ⟨[]⟩)).dt.workStep false).1.thread_.pc = .drain :=
  ⟨(work_returns_only_when_drained ⟨[]⟩
      [.setTerminate, .work false, .work false, .work false] _ rfl).1 rfl,
    ((work_returns_only_when_drained ⟨[]⟩
      [.enqueue (.Cancel ⟨1⟩), .setTerminate, .work false, .work false] _ rfl).2.2.2.2.1
        false rfl (by decide)).2⟩

/-- C9: the busy-flag discipline of `Work()`, in every concurrent execution.
Whenever the dispatcher thread calls `Dispatch()`, `busy_` is true and its two
latest actions were `busy_ = true` followed by a `try_pop` that found the
queue empty; `busy_` stays true while it is inside `Dispatch()`. Whenever it
calls a Job, `busy_` is false, before and after the call. When the re-check
finds a Job, the thread resets `busy_`, calls that Job and is back at the loop
head, without any call of `Dispatch()`. The action after each return of
`Dispatch()` is `busy_ = false`. And `busy_` is false once `Work()` has
returned. -/
theorem busy_flag_discipline (dispatcher : Dispatcher) (es : List Event)
    (s : System) (hs : s = run es (start dispatcher)) :
    (∀ w, (s.dt.workStep w).2 = some .dispatchCall →
      s.dt.busy_ = true ∧ [.setBusy true, .tryPop none] <:+ s.trace ∧
      (s.dt.workStep w).1.busy_ = true) ∧
    (s.dt.thread_.pc = .inDispatch → s.dt.busy_ = true) ∧
    (∀ w job, (s.dt.workStep w).2 = some (.runJob job) →
      s.dt.busy_ = false ∧ (s.dt.workStep w).1.busy_ = false) ∧
    (∀ w1 w2 w3 job rest, s.dt.thread_.pc = .recheck →
      s.dt.jobqueue_.queue_ = job :: rest →
      (run [.work w1, .work w2, .work w3] s).trace =
        s.trace ++ [.tryPop (some job), .setBusy false, .runJob job] ∧
      (run [.work w1, .work w2, .work w3] s).dt.thread_.pc = .loopTerminate ∧
      (run [.work w1, .work w2, .work w3] s).dt.busy_ = false ∧
      (run [.work w1, .work w2, .work w3] s).dt.dispatcher_.dispatches =
        s.dt.dispatcher_.dispatches) ∧
    (∀ w w', (s.dt.workStep w).2 = some .dispatchReturn →
      ((s.dt.workStep w).1.workStep w').2 = some (.setBusy false) ∧
      ((s.dt.workStep w).1.workStep w').1.busy_ = false) ∧
    (s.dt.thread_.pc = .returned → s.dt.busy_ = false) := by
  have hinv : Inv s := hs ▸ inv_reachable dispatcher es
  clear hs
  obtain ⟨hb, hr, hf, hq⟩ := hinv
  obtain ⟨⟨d, ⟨q⟩, b, t, ⟨pc, jn⟩⟩, tr, sub⟩ := s
  simp only at hb hr hf hq
  refine ⟨?_, ?_, ?_, ?_, ?_, ?_⟩
  · intro w h
    cases pc <;> cases q <;> cases w <;> cases t <;>
      simp_all [DispatcherThread.workStep, DispatcherThread.goto, busyAt, recentActions,
        common.ConcurrentBoundedQueue.try_pop, common.ConcurrentBoundedQueue.empty]
    all_goals
      obtain ⟨pre, hpre⟩ := hr
      exact ⟨pre ++ [.tryPop none], by simp [← hpre]⟩
  · intro h
    simp only at h
    subst h
    exact hb
  · intro w job h
    cases pc <;> cases q <;> cases w <;> cases t <;>
      simp_all [DispatcherThread.workStep, DispatcherThread.goto, busyAt,
        common.ConcurrentBoundedQueue.try_pop, common.ConcurrentBoundedQueue.empty]
  · intro w1 w2 w3 job rest h1 h2
    simp only at h1 h2
    subst h1 h2
    simp [run, step, DispatcherThread.workStep, DispatcherThread.goto,
      common.ConcurrentBoundedQueue.try_pop, Dispatcher.dispatches, Job.run_calls,
      List.count_append, List.count_eq_zero_of_not_mem (Job.dispatch_not_mem_body job)]
  · intro w w' h
    cases pc <;> cases q <;> cases w <;> cases t <;>
      simp_all [DispatcherThread.workStep, DispatcherThread.goto,
        common.ConcurrentBoundedQueue.try_pop, common.ConcurrentBoundedQueue.empty]
  · intro h
    simp only at h
    subst h
    exact hb

/-- C9, at a concrete execution: the thread drains an empty queue, sets
`busy_`, re-checks and calls `Dispatch()` with `busy_` true; a Job enqueued
before the re-check is instead called with `busy_` false. -/
theorem busy_flag_discipline_witness :
    (run [.work false, .work false, .work false, .work false] (start ⟨[]⟩)).dt.busy_ = true ∧
    ((run [.work false, .work false, .work false, .work false] (start ⟨[]⟩)).dt.workStep
      false).2 = some .dispatchCall ∧
    (run [.work false, .work false, .work false, .enqueue (.Cancel ⟨1⟩), .work false,
      .work false] (start ⟨[]⟩)).dt.busy_ = false :=
  ⟨((busy_flag_discipline ⟨[]⟩ [.work false, .work false, .work false, .work false] _ rfl).1
      false (by decide)).1,
    by decide,
    ((busy_flag_discipline ⟨[]⟩ [.work false, .work false, .work false,
      .enqueue (.Cancel ⟨1⟩), .work false, .work false] _ rfl).2.2.1
      false (.Cancel ⟨1⟩) (by decide)).1⟩

end System
end net
end thrill

namespace thrill
namespace net
namespace DispatcherThread

/-- C7: `Terminate()` is idempotent and the terminate flag is monotonic. A
first call (flag unset, thread joinable) returns once the work loop has
drained, and it does return when the event loop reports no pending writes;
when it returns the flag is set, the thread has returned from `Work()` and is
joined, and exactly one wake step was run (one `Interrupt()` if `busy_` was
true, none otherwise). Every call made with the flag set, the destructor's
included, returns at once with the state unchanged. No step of any thread
resets the flag: not a step of `Work()`, not `Enqueue`, `WakeUpThread`, a
submission call or `Terminate` itself. -/
theorem terminate_idempotent (s : DispatcherThread) :
    (s.terminate_ = false → s.thread_.joinable = true →
      (∃ ws s', Terminate ws s = some s') ∧
      ∀ ws s', Terminate ws s = some s' →
        s'.terminate_ = true ∧ s'.thread_.pc = .returned ∧ s'.thread_.joinable = false ∧
        s'.dispatcher_.interrupts = s.dispatcher_.interrupts + (if s.busy_ then 1 else 0) ∧
        ∀ ws', Terminate ws' s' = some s' ∧ destroy ws' s' = some s') ∧
    (s.terminate_ = true → ∀ ws, Terminate ws s = some s ∧ destroy ws s = some s) ∧
    (s.terminate_ = true →
      (∀ w, (workStep w s).1.terminate_ = true) ∧
      (∀ job, (Enqueue s job).terminate_ = true) ∧
      (WakeUpThread s).terminate_ = true ∧
      (∀ call s', Submission.apply call s = .ok s' → s'.terminate_ = true) ∧
      (∀ ws s', Terminate ws s = some s' → s'.terminate_ = true)) ∧
    (s.terminate_ = true →
      ∀ (e : Event) (tr : List WorkAction) (sub : List Job),
        (System.step e ⟨s, tr, sub⟩).dt.terminate_ = true) := by
  refine ⟨?_, ?_, ?_, ?_⟩
  · intro ht hj
    have hT : ∀ ws, Terminate ws s = join ws (WakeUpThread { s with terminate_ := true }) := by
      intro ws
      simp [Terminate, ht]
    have h1t : (WakeUpThread { s with terminate_ := true }).terminate_ = true :=
      wakeUpThread_terminate _
    have h1j : (WakeUpThread { s with terminate_ := true }).thread_.joinable = true :=
      (wakeUpThread_joinable _).trans hj
    have h1i : (WakeUpThread { s with terminate_ := true }).dispatcher_.interrupts =
        s.dispatcher_.interrupts + (if s.busy_ then 1 else 0) :=
      wakeUpThread_interrupts _
    constructor
    · obtain ⟨n, hn⟩ := finishes _ h1t
      refine ⟨List.replicate n false, ?_⟩
      rw [hT]
      unfold join Work
      rw [if_pos h1j, if_pos hn]
      exact ⟨_, rfl⟩
    · intro ws s' h
      rw [hT] at h
      unfold join Work at h
      rw [if_pos h1j] at h
      by_cases hc :
          (runWork ws (WakeUpThread { s with terminate_ := true })).thread_.pc = .returned
      · rw [if_pos hc] at h
        injection h with h
        subst h
        refine ⟨?_, hc, rfl, ?_, ?_⟩
        · exact (runWork_terminate ws _).trans h1t
        · exact (runWork_interrupts ws _).trans h1i
        · intro ws'
          have ht' : (runWork ws (WakeUpThread { s with terminate_ := true })).terminate_
              = true := (runWork_terminate ws _).trans h1t
          simp [Terminate, destroy, ht']
      · rw [if_neg hc] at h
        cases h
  · intro ht ws
    simp [Terminate, destroy, ht]
  · intro ht
    refine ⟨?_, ?_, ?_, ?_, ?_⟩
    · intro w
      exact (workStep_terminate w s).trans ht
    · intro job
      exact ht
    · exact (wakeUpThread_terminate s).trans ht
    · intro call s' h
      rw [Submission.apply_eq] at h
      split at h
      · injection h with h
        subst h
        exact (wakeUpThread_terminate _).trans ht
      · cases h
    · intro ws s' h
      simp [Terminate, ht] at h
      subst h
      exact ht
  · intro ht e tr sub
    cases e with
    | work w => exact (workStep_terminate w s).trans ht
    | enqueue job => exact ht
    | interrupt => exact ht
    | setTerminate => rfl

/-- C7, at a concrete state: the thread of a freshly constructed
`DispatcherThread` has run into `Dispatch()`; the first `Terminate()` sets the
flag, makes one `Interrupt()` call and joins; a second call changes nothing. -/
theorem terminate_idempotent_witness :
    ∃ s',
      Terminate [false, false, false, false, false]
        (runWork [false, false, false, false, false] (new ⟨[]⟩)) = some s' ∧
      s'.terminate_ = true ∧ s'.thread_.joinable = false ∧
      s'.dispatcher_.interrupts = 1 ∧
      Terminate [] s' = some s' := by
  have h := (terminate_idempotent
    (runWork [false, false, false, false, false] (new ⟨[]⟩))).1 rfl rfl
  have e : Terminate [false, false, false, false, false]
      (runWork [false, false, false, false, false] (new ⟨[]⟩)) =
      some { new ⟨[.Dispatch, .Interrupt]⟩ with
             terminate_ := true, thread_ := ⟨.returned, false⟩ } := by
    decide
  obtain ⟨h1, _, h3, h4, h5⟩ := h.2 _ _ e
  exact ⟨_, e, h1, h3, h4, (h5 []).1⟩

end DispatcherThread
end net
end thrill

namespace thrill
namespace net
namespace Race

theorem race_awake_step (w : Bool) (s : System) (seen : Option Bool)
    (h : seen = some false → s.dt.jobqueue_.queue_ ≠ [] →
      s.dt.thread_.pc ≠ .callDispatch ∧ s.dt.thread_.pc ≠ .inDispatch) :
    seen = some false → (s.step (.work w)).dt.jobqueue_.queue_ ≠ [] →
      (s.step (.work w)).dt.thread_.pc ≠ .callDispatch ∧
      (s.step (.work w)).dt.thread_.pc ≠ .inDispatch := by
  obtain ⟨⟨d, ⟨q⟩, b, t, ⟨pc, jn⟩⟩, tr, sub⟩ := s
  intro hseen
  have h' := h hseen
  simp only at h'
  cases pc <;> cases q <;> cases w <;> cases t <;>
    simp_all [System.step, DispatcherThread.workStep, DispatcherThread.goto,
      common.ConcurrentBoundedQueue.try_pop, common.ConcurrentBoundedQueue.empty]

theorem race_inv_start (dispatcher : Dispatcher) : Inv (start dispatcher) := by
  refine ⟨System.inv_start dispatcher, ?_, ?_, ?_⟩
  · intro pc h
    cases h
  · intro _
    rfl
  · intro h
    cases h

theorem race_inv_step (job : Job) (e : RaceEvent) (r : Race) (h : Inv r) :
    Inv (step job e r) := by
  obtain ⟨hs, hr, hu, ha⟩ := h
  obtain ⟨sys, prod, pa, ra, seen, du⟩ := r
  simp only at hs hr hu ha
  cases e with
  | dispatcher w =>
    exact ⟨System.inv_step (.work w) _ hs, hr, hu, race_awake_step w sys seen ha⟩
  | producer =>
    cases prod with
    | beforeEnqueue =>
      refine ⟨System.inv_step (.enqueue job) _ hs, hr, ?_, ?_⟩
      · intro _
        exact hu (Or.inl rfl)
      · intro hseen
        rw [hu (Or.inl rfl)] at hseen
        cases hseen
    | beforeRead =>
      refine ⟨hs, ?_, ?_, ?_⟩
      · intro pc hpc
        simp only [step, Option.some.injEq] at hpc
        subst hpc
        simp only [step, hs.busy]
      · intro hp
        simp [step] at hp
      · intro hseen _
        simp only [step, Option.some.injEq] at hseen
        have hb := hs.busy
        rw [hseen] at hb
        simp only [step]
        constructor
        · intro hpc
          rw [hpc] at hb
          cases hb
        · intro hpc
          rw [hpc] at hb
          cases hb
    | afterRead b =>
      cases b with
      | true =>
        refine ⟨System.inv_step .interrupt _ hs, hr, ?_, ha⟩
        intro hp
        simp [step] at hp
      | false =>
        refine ⟨hs, hr, ?_, ha⟩
        intro hp
        simp [step] at hp
    | finished => exact ⟨hs, hr, hu, ha⟩

theorem race_inv_run (job : Job) (sched : List RaceEvent) :
    ∀ r : Race, Inv r → Inv (run job sched r) := by
  induction sched with
  | nil => intro r h; exact h
  | cons e sched ih => intro r h; exact ih _ (race_inv_step job e r h)

theorem race_inv_reachable (dispatcher : Dispatcher) (job : Job) (sched : List RaceEvent) :
    Inv (run job sched (start dispatcher)) :=
  race_inv_run job sched _ (race_inv_start dispatcher)

/-- What the busy flag guarantees around the blocking wait, in every
interleaving of the two threads: a producer that reads `busy_` while the
dispatcher thread stands between the second check and the assignment
`busy_ = false` after `Dispatch()` reads true, and once a producer has read
`busy == false` the dispatcher thread is never about to block or blocked while
the queue holds a Job. -/
theorem busy_true_around_wait (dispatcher : Dispatcher) (job : Job)
    (sched : List RaceEvent) :
    (((run job sched (start dispatcher)).readAt = some .callDispatch ∨
        (run job sched (start dispatcher)).readAt = some .inDispatch ∨
        (run job sched (start dispatcher)).readAt = some .clearBusy) →
      (run job sched (start dispatcher)).seen = some true) ∧
    ((run job sched (start dispatcher)).seen = some false →
      (run job sched (start dispatcher)).sys.dt.jobqueue_.queue_ ≠ [] →
      (run job sched (start dispatcher)).sys.dt.thread_.pc ≠ .callDispatch ∧
      (run job sched (start dispatcher)).sys.dt.thread_.pc ≠ .inDispatch) := by
  refine ⟨?_, (race_inv_reachable dispatcher job sched).awake⟩
  intro h
  have hinv := (race_inv_reachable dispatcher job sched).read
  rcases h with h | h | h <;> exact hinv _ h

end Race
end net
end thrill
